import Mathlib

/-!
Verification of the Reddit feed-filtering content script (`src/index.ts`).

Texts (titles, keywords, subreddit names, attribute values) are modelled as
`List Char`; DOM attribute reads that can return `null` are modelled as
`Option (List Char)`, with JavaScript string truthiness (`null` and `""` are
falsy) made explicit where the source relies on it.  Timestamps
(`Date.now()`, `Date#getTime()`) are modelled as `Int` milliseconds.
-/

namespace RBK

/-! ## Keyword matcher (`Filter.findMatchingKeyword`)

The source builds, for each configured keyword, the regular expression
`\b<escaped lowercased keyword>\b` (all regex metacharacters escaped, so the
middle is a literal) and tests it against the lowercased title.  A JavaScript
`\b` assertion holds at a position iff exactly one of the two surrounding
characters is a word character (`[A-Za-z0-9_]`), a position outside the
string counting as a non-word character. -/

/-- JavaScript regex word character: `[A-Za-z0-9_]` (no `u` flag in the source). -/
def isWordChar (c : Char) : Bool :=
  (('a' ≤ c) && (c ≤ 'z')) || (('A' ≤ c) && (c ≤ 'Z')) ||
    (('0' ≤ c) && (c ≤ '9')) || (c == '_')

/-- Word-character test on a position that may fall outside the string. -/
def isWordOpt : Option Char → Bool
  | none => false
  | some c => isWordChar c

/-- The character just before position `i`, `none` at the left edge. -/
def prevCharOpt (t : List Char) (i : Nat) : Option Char :=
  if i = 0 then none else t[i - 1]?

/-- `startsWithChars k t` holds when `t` begins with the literal pattern `k`. -/
def startsWithChars : List Char → List Char → Bool
  | [], _ => true
  | _ :: _, [] => false
  | c :: k, d :: t => c == d && startsWithChars k t

/-- The regex `\b<literal k>\b` matches `t` at position `i`. -/
def wordMatchAt (t k : List Char) (i : Nat) : Bool :=
  match k with
  | [] => isWordOpt (prevCharOpt t i) != isWordOpt t[i]?
  | _ :: _ =>
    startsWithChars k (t.drop i) &&
    (isWordOpt (prevCharOpt t i) != isWordOpt k.head?) &&
    (isWordOpt k.getLast? != isWordOpt t[i + k.length]?)

/-- `RegExp(\b<literal k>\b).test(t)`: some position of `t` matches. -/
def regexTestWord (t k : List Char) : Bool :=
  (List.range (t.length + 1)).any (wordMatchAt t k)

/-- `String#toLowerCase` on the ASCII range. -/
def lowerStr (s : List Char) : List Char := s.map Char.toLower

/-- `Filter.findMatchingKeyword`: first keyword of the list whose
word-bounded lowercased literal occurs in the lowercased text. -/
def findMatchingKeyword (keywords : List (List Char)) (text : List Char) :
    Option (List Char) :=
  keywords.find? (fun kw => regexTestWord (lowerStr text) (lowerStr kw))

/-! Specification-side reading of the claim: the keyword occurs in the text
as a whole word, stated as a decomposition `t = pre ++ k ++ suf` with a word
boundary at both seams. -/

/-- A word boundary separates two (possibly absent) characters iff exactly
one of them is a word character. -/
def BoundaryBetween (a b : Option Char) : Prop := isWordOpt a ≠ isWordOpt b

/-- `k` occurs in `t` delimited by word boundaries on both sides. -/
def OccursAsWholeWord (k t : List Char) : Prop :=
  ∃ pre suf, t = pre ++ k ++ suf ∧
    BoundaryBetween pre.getLast? ((k ++ suf).head?) ∧
    BoundaryBetween ((pre ++ k).getLast?) suf.head?

/-- The claim's match relation: `k` occurs in `T` as a case-insensitive
whole word. -/
def MatchesAsKeyword (k t : List Char) : Prop :=
  OccursAsWholeWord (lowerStr k) (lowerStr t)

/-! ## Subreddit matcher (`Filter.isBlockedSubreddit`) -/

/-- `Filter.isBlockedSubreddit`: some configured entry is case-insensitively
equal to the name (full-string comparison). -/
def isBlockedSubreddit (subreddits : List (List Char)) (name : List Char) : Bool :=
  subreddits.any (fun blocked => lowerStr blocked == lowerStr name)

/-! ## Account-age predicate (`Filter.isAccountTooYoung`)

The source computes `(now - createdAt) / (1000*60*60*24*30.44)` and compares
it with `settings.minAccountAge`; the arithmetic is modelled exactly over
`ℚ`, with `30.44 = 3044/100`. -/

/-- `Filter.isAccountTooYoung`: the account's age in average months is below
the configured minimum. -/
def isAccountTooYoung (now createdAt minAccountAge : Int) : Bool :=
  decide (((now - createdAt : Int) : ℚ) /
    ((1000 : ℚ) * 60 * 60 * 24 * (3044 / 100)) < (minAccountAge : ℚ))

/-! ## Account-age resolver (`Filter.fetchUserProfile`)

State touched by the resolver: the per-handle age cache, the in-flight
request set, the rate-limit record and the API-pause flag.  The network is
an oracle: one call's outcome is either a thrown fetch (`fetchError`) or a
response carrying its `ok` flag, its three rate-limit headers, and the
creation date that `parseAccountCreationDate` extracts from its body
(`none` when neither selector yields a parseable date).  A header field is
`some v` when the header is present, passes the JS truthiness test and
parses to `v`. -/

structure RateLimitInfo where
  remaining : Int
  reset : Int
  used : Int
deriving DecidableEq

structure CacheEntry where
  createdAt : Int
  fetchedAt : Int
deriving DecidableEq

structure ResolverState where
  userAgeCache : List (String × CacheEntry)
  pendingRequests : List String
  rateLimitInfo : RateLimitInfo
  apiPaused : Bool
deriving DecidableEq

structure RateHeaders where
  remaining : Option Int
  reset : Option Int
  used : Option Int
deriving DecidableEq

inductive NetworkOutcome where
  | fetchError : NetworkOutcome
  | response (ok : Bool) (headers : RateHeaders) (parsedCreationDate : Option Int) :
      NetworkOutcome
deriving DecidableEq

/-- What one `fetchUserProfile` call produces: its return value, the state
it leaves behind, and whether it issued an outbound network request. -/
structure FetchResult where
  result : Option Int
  state : ResolverState
  issuedRequest : Bool
deriving DecidableEq

/-- Read of `this.userAgeCache[username]`. -/
def cacheLookup (cache : List (String × CacheEntry)) (u : String) : Option CacheEntry :=
  (cache.find? (fun e => e.1 == u)).map (fun e => e.2)

/-- Write of `this.userAgeCache[username] = entry` (overwriting assignment). -/
def cacheStore (cache : List (String × CacheEntry)) (u : String) (e : CacheEntry) :
    List (String × CacheEntry) :=
  (u, e) :: cache.filter (fun p => p.1 != u)

/-- `Filter.updateRateLimitFromHeaders`: each of the three fields is
overwritten only when its header is present; `X-Ratelimit-Reset` carries
seconds from now and is stored as `now + seconds * 1000`. -/
def updateRateLimitFromHeaders (rl : RateLimitInfo) (h : RateHeaders) (now : Int) :
    RateLimitInfo :=
  let rl1 := match h.remaining with
    | some v => { rl with remaining := v }
    | none => rl
  let rl2 := match h.reset with
    | some v => { rl1 with reset := now + v * 1000 }
    | none => rl1
  match h.used with
  | some v => { rl2 with used := v }
  | none => rl2

/-- The body of `fetchUserProfile` past its early-return guards: add the
handle to `pendingRequests`, run the fetch inside `try ... finally
pendingRequests.delete(username)`.  On a response (even a non-OK one) the
rate-limit record is updated from the headers; only an OK response with a
parseable creation date populates the cache. -/
def fetchNetworkPhase (s : ResolverState) (username : String) (now : Int)
    (net : NetworkOutcome) : FetchResult :=
  let pendingDuring := username :: s.pendingRequests
  match net with
  | .fetchError =>
    ⟨none, { s with pendingRequests := pendingDuring.erase username }, true⟩
  | .response ok headers parsed =>
    let rl := updateRateLimitFromHeaders s.rateLimitInfo headers now
    if !ok then
      ⟨none,
        { s with
          rateLimitInfo := rl
          pendingRequests := pendingDuring.erase username },
        true⟩
    else
      match parsed with
      | some d =>
        ⟨some d,
          { s with
            rateLimitInfo := rl
            userAgeCache := cacheStore s.userAgeCache username ⟨d, now⟩
            pendingRequests := pendingDuring.erase username },
          true⟩
      | none =>
        ⟨none,
          { s with
            rateLimitInfo := rl
            pendingRequests := pendingDuring.erase username },
          true⟩

/-- The early-return guards of `fetchUserProfile` that run after the cache
check: API paused, rate budget at or below the floor of 20, request for the
handle already in flight — each returns `null` without touching the network. -/
def fetchUserProfileUncached (s : ResolverState) (username : String) (now : Int)
    (net : NetworkOutcome) : FetchResult :=
  if s.apiPaused then ⟨none, s, false⟩
  else if s.rateLimitInfo.remaining ≤ 20 then ⟨none, s, false⟩
  else if s.pendingRequests.contains username then ⟨none, s, false⟩
  else fetchNetworkPhase s username now net

/-- `Filter.fetchUserProfile`: a cache entry fetched less than one hour ago
is returned immediately; otherwise the guarded network path runs. -/
def fetchUserProfile (s : ResolverState) (username : String) (now : Int)
    (net : NetworkOutcome) : FetchResult :=
  match cacheLookup s.userAgeCache username with
  | some cached =>
    if now - cached.fetchedAt < 3600000 then ⟨some cached.createdAt, s, false⟩
    else fetchUserProfileUncached s username now net
  | none => fetchUserProfileUncached s username now net

/-- The cache entry a call at time `now` would be served from, if any. -/
def liveCacheHit (s : ResolverState) (u : String) (now : Int) : Option Int :=
  match cacheLookup s.userAgeCache u with
  | some e => if now - e.fetchedAt < 3600000 then some e.createdAt else none
  | none => none

/-- Outcomes `fetchUserProfile` treats as failures: a thrown fetch, a
non-OK response, or an OK response whose body yields no creation date. -/
def failedOutcome : NetworkOutcome → Bool
  | .fetchError => true
  | .response ok _ parsed => !ok || parsed.isNone

/-- The resolver state as `Filter`'s constructor initialises it
(`remaining: 500, reset: Date.now() + 600000, used: 0`, empty cache and
in-flight set), taking construction time 0. -/
def initResolverState : ResolverState :=
  ⟨[], [], ⟨500, 600000, 0⟩, false⟩

/-! ## Post scanner, pass 1 (`Filter.removePosts`)

`removePosts` iterates over `document.querySelectorAll('article[aria-label],
shreddit-post')`.  A feed element is either an `article` (its `aria-label`
string, its own optional `subreddit-prefixed-name` attribute, and the
attributes of a nested `shreddit-post` if one exists) or a `shreddit-post`
(its own attributes, plus the `aria-label` of its `closest('article')`
ancestor when one exists, already defaulted to `""` as the source does).
Attribute reads that can be `null` are `Option`s; JS string truthiness
guards (`attr || fallback`, `if (subredditName && ...)`, `if (author &&
...)`) are modelled by `strTruthy`/`jsOrStr`. -/

structure ShredditAttrs where
  author : Option (List Char)
  postTitle : Option (List Char)
  subredditPrefixedName : Option (List Char)
deriving DecidableEq

inductive PostElem where
  | article (ariaLabel : List Char) (selfSubreddit : Option (List Char))
      (inner : Option ShredditAttrs) : PostElem
  | shredditPost (attrs : ShredditAttrs) (parentAriaLabel : Option (List Char)) :
      PostElem
deriving DecidableEq

/-- Settings fields pass 1 reads. -/
structure ScanSettings where
  keywords : List (List Char)
  subreddits : List (List Char)
  apiPaused : Bool
deriving DecidableEq

/-- JS string truthiness: `null` and `""` are falsy. -/
def strTruthy : Option (List Char) → Bool
  | none => false
  | some s => !s.isEmpty

/-- JS `a || b` on nullable strings. -/
def jsOrStr (a b : Option (List Char)) : Option (List Char) :=
  if strTruthy a then a else b

/-- The `shreddit-post` whose attributes the scanner reads: the element
itself, or the one nested in the `article`. -/
def elemShreddit : PostElem → Option ShredditAttrs
  | .article _ _ inner => inner
  | .shredditPost a _ => some a

/-- `post.getAttribute('subreddit-prefixed-name') || (shredditPost ?
shredditPost.getAttribute('subreddit-prefixed-name') : '')`. -/
def elemSubredditName : PostElem → Option (List Char)
  | .article _ selfSub inner =>
    jsOrStr selfSub (match inner with
      | some a => a.subredditPrefixedName
      | none => some [])
  | .shredditPost a _ =>
    jsOrStr a.subredditPrefixedName a.subredditPrefixedName

/-- The `if (subredditName && this.isBlockedSubreddit(subredditName))` test. -/
def subredditBlockedOf (st : ScanSettings) (p : PostElem) : Bool :=
  match elemSubredditName p with
  | some s => !s.isEmpty && isBlockedSubreddit st.subreddits s
  | none => false

/-- Pass-1 removal decision for one element, following the source order:
keyword check on an `article`'s own `aria-label`; subreddit check; then,
only when the element is a `shreddit-post` and nothing matched yet, keyword
check on the `aria-label` of its enclosing `article` (skipped entirely when
no enclosing `article` exists). -/
def pass1ShouldRemove (st : ScanSettings) (p : PostElem) : Bool :=
  let articleKeyword :=
    match p with
    | .article aria _ _ => (findMatchingKeyword st.keywords aria).isSome
    | .shredditPost _ _ => false
  let afterSubreddit := articleKeyword || subredditBlockedOf st p
  if afterSubreddit then true
  else
    match p with
    | .shredditPost _ (some parentAria) =>
      (findMatchingKeyword st.keywords parentAria).isSome
    | _ => false

/-- Whether pass 1 queues the element for an age check: not removed, a
`shreddit-post` is available, the API is not paused, the author attribute
is truthy and the remaining rate budget is above 20. -/
def pass1Queues (st : ScanSettings) (remaining : Int) (p : PostElem) : Bool :=
  !pass1ShouldRemove st p &&
    (match elemShreddit p with
     | some a => !st.apiPaused && (strTruthy a.author && decide (remaining > 20))
     | none => false)

/-- The pass-1 loop over the current feed items: count of removals (each
one also increments the counters) and the queue handed to pass 2. -/
def scanPass1 (st : ScanSettings) (remaining : Int) (posts : List PostElem) :
    Nat × List PostElem :=
  posts.foldl
    (fun acc p =>
      (if pass1ShouldRemove st p then acc.1 + 1 else acc.1,
       if pass1Queues st remaining p then acc.2 ++ [p] else acc.2))
    (0, [])

/-- The display title a keyword can act on in pass 1: an `article`'s own
`aria-label`, or for a `shreddit-post` the `aria-label` of its enclosing
`article` — a standalone `shreddit-post` has none. -/
def effectiveTitle : PostElem → Option (List Char)
  | .article aria _ _ => some aria
  | .shredditPost _ parentAria => parentAria

/-- Whether the effective title matches a configured keyword. -/
def effectiveTitleMatch (st : ScanSettings) (p : PostElem) : Bool :=
  match effectiveTitle p with
  | some ttl => (findMatchingKeyword st.keywords ttl).isSome
  | none => false

/-! ## Counter store (`Filter.loadCounters`, `Filter.incrementCountersSync`)

`mem` is `this.counters`; `stored` is the `filterCounters` blob in
`browser.storage.local` (`none` before the first save).  `saveCounters`
writes `mem` to storage; the run model takes the save to succeed, the case
the counter claims speak about (a failed save is caught and logged and
leaves storage unchanged). -/

structure CounterData where
  totalRemoved : Nat
  dailyRemoved : Nat
  lastResetDate : String
deriving DecidableEq

structure CounterSystem where
  mem : CounterData
  stored : Option CounterData
deriving DecidableEq

/-- `Filter.loadCounters` at a call whose `new Date().toDateString()` is
`today`: merge the stored blob over the in-memory record (the blob carries
every field, so it wins wholesale); reset `dailyRemoved` and stamp `today`
when the stored reset date is not `today`, saving the result; with no
stored blob, save the in-memory defaults. -/
def loadCounters (s : CounterSystem) (today : String) : CounterSystem :=
  match s.stored with
  | some c =>
    if c.lastResetDate ≠ today then
      let m : CounterData := { c with dailyRemoved := 0, lastResetDate := today }
      ⟨m, some m⟩
    else ⟨c, s.stored⟩
  | none => ⟨s.mem, some s.mem⟩

/-- `Filter.incrementCountersSync`: bump both counters, then persist. -/
def incrementCountersSync (s : CounterSystem) : CounterSystem :=
  let m : CounterData := { s.mem with
    totalRemoved := s.mem.totalRemoved + 1
    dailyRemoved := s.mem.dailyRemoved + 1 }
  ⟨m, some m⟩

/-- The counter operations the engine performs: a (re)load at some calendar
date, or one increment after a removal. -/
inductive CounterOp where
  | load (today : String) : CounterOp
  | increment : CounterOp
deriving DecidableEq

def counterStep (s : CounterSystem) : CounterOp → CounterSystem
  | .load today => loadCounters s today
  | .increment => incrementCountersSync s

def counterRun (s : CounterSystem) (ops : List CounterOp) : CounterSystem :=
  ops.foldl counterStep s

/-- Storage coherence: the stored blob, when present, is what the engine
last saved. -/
def CoherentStorage (s : CounterSystem) : Prop :=
  s.stored = none ∨ s.stored = some s.mem

/-- The pass-1 counter effect: one `incrementCountersSync` per removed
element. -/
def scanCounters (c : CounterSystem) (st : ScanSettings) (posts : List PostElem) :
    CounterSystem :=
  posts.foldl
    (fun acc p => if pass1ShouldRemove st p then incrementCountersSync acc else acc) c

/-! ## Engine teardown (`Filter.destroy`, `Filter.setupObserver`)

The timer state a `Filter` instance owns: whether its `MutationObserver` is
attached, its periodic `setInterval` handle, and the pending debounce
`setTimeout` handle held by the observer callback's closure. -/

structure EngineTimers where
  observerAttached : Bool
  periodicTimer : Option Nat
  debounceTimer : Option Nat
deriving DecidableEq

/-- `Filter.destroy`: disconnect the observer and clear the periodic
interval.  (The source touches nothing else.) -/
def destroy (s : EngineTimers) : EngineTimers :=
  { s with observerAttached := false, periodicTimer := none }

/-- The `MutationObserver` callback on a mutation burst: clear any pending
debounce timeout and arm a fresh 100 ms one, recorded by its handle. -/
def observerMutationBurst (s : EngineTimers) (timerId : Nat) : EngineTimers :=
  { s with debounceTimer := some timerId }

/-! ## Theorems -/

/-! ### The keyword matcher agrees with word-boundary occurrence -/

theorem startsWithChars_iff (k t : List Char) :
    startsWithChars k t = true ↔ ∃ suf, t = k ++ suf := by
  induction k generalizing t with
  | nil => simp [startsWithChars]
  | cons c k ih =>
    cases t with
    | nil => simp [startsWithChars]
    | cons d t =>
      simp only [startsWithChars, Bool.and_eq_true, beq_iff_eq, ih,
        List.cons_append, List.cons.injEq]
      constructor
      · rintro ⟨rfl, suf, rfl⟩
        exact ⟨suf, rfl, rfl⟩
      · rintro ⟨suf, rfl, rfl⟩
        exact ⟨rfl, suf, rfl⟩

theorem getLast?_take_eq (t : List Char) (i : Nat) (h : i ≤ t.length) :
    (t.take i).getLast? = prevCharOpt t i := by
  rw [List.getLast?_eq_getElem?, List.length_take_of_le h]
  cases i with
  | zero => simp [prevCharOpt]
  | succ j =>
    rw [Nat.succ_sub_one, List.getElem?_take_of_lt (Nat.lt_succ_self j)]
    simp [prevCharOpt]

theorem getElem?_append_length (pre suf : List Char) :
    (pre ++ suf)[pre.length]? = suf.head? := by
  rw [List.getElem?_append_right (Nat.le_refl _), Nat.sub_self,
    List.head?_eq_getElem?]

theorem regexTestWord_iff (t k : List Char) :
    regexTestWord t k = true ↔ OccursAsWholeWord k t := by
  rw [regexTestWord, List.any_eq_true]
  constructor
  · rintro ⟨i, hmem, hmatch⟩
    rw [List.mem_range, Nat.lt_succ_iff] at hmem
    cases k with
    | nil =>
      rw [wordMatchAt, bne_iff_ne] at hmatch
      refine ⟨t.take i, t.drop i, by simp, ?_, ?_⟩
      · rw [List.nil_append, getLast?_take_eq t i hmem, List.head?_drop]
        exact hmatch
      · rw [List.append_nil, getLast?_take_eq t i hmem, List.head?_drop]
        exact hmatch
    | cons c k =>
      rw [wordMatchAt, Bool.and_eq_true, Bool.and_eq_true] at hmatch
      obtain ⟨⟨hsw, hb1⟩, hb2⟩ := hmatch
      rw [startsWithChars_iff] at hsw
      obtain ⟨suf, hdrop⟩ := hsw
      have hpre : t.take i ++ (c :: k) ++ suf = t := by
        rw [List.append_assoc, ← hdrop, List.take_append_drop]
      have hlen : (t.take i).length = i := List.length_take_of_le hmem
      refine ⟨t.take i, suf, hpre.symm, ?_, ?_⟩
      · rw [getLast?_take_eq t i hmem, List.cons_append, List.head?_cons]
        rw [bne_iff_ne] at hb1
        exact hb1
      · rw [List.getLast?_append_of_ne_nil _ (List.cons_ne_nil c k)]
        rw [bne_iff_ne] at hb2
        have : t[i + (c :: k).length]? = suf.head? := by
          have h2 : (t.take i ++ (c :: k)).length = i + (c :: k).length := by
            rw [List.length_append, hlen]
          calc t[i + (c :: k).length]?
              = (t.take i ++ (c :: k) ++ suf)[(t.take i ++ (c :: k)).length]? := by
                rw [hpre, h2]
            _ = suf.head? := getElem?_append_length _ _
        rw [← this]
        exact hb2
  · rintro ⟨pre, suf, rfl, hb1, hb2⟩
    refine ⟨pre.length, ?_, ?_⟩
    · rw [List.mem_range, Nat.lt_succ_iff]
      simp [List.length_append]
    · have htake : (pre ++ k ++ suf).take pre.length = pre := by
        rw [List.append_assoc, List.take_left]
      have hlenle : pre.length ≤ (pre ++ k ++ suf).length := by
        simp [List.length_append]
      have hprev : prevCharOpt (pre ++ k ++ suf) pre.length = pre.getLast? := by
        rw [← getLast?_take_eq _ _ hlenle, htake]
      cases k with
      | nil =>
        rw [wordMatchAt, bne_iff_ne, hprev]
        have : (pre ++ [] ++ suf)[pre.length]? = suf.head? := by
          rw [List.append_nil, getElem?_append_length]
        rw [this]
        rw [List.nil_append] at hb1
        exact hb1
      | cons c k =>
        rw [wordMatchAt, Bool.and_eq_true, Bool.and_eq_true]
        refine ⟨⟨?_, ?_⟩, ?_⟩
        · rw [startsWithChars_iff]
          refine ⟨suf, ?_⟩
          rw [List.append_assoc, List.drop_left]
        · rw [bne_iff_ne, hprev, List.head?_cons]
          rw [List.cons_append, List.head?_cons] at hb1
          exact hb1
        · rw [bne_iff_ne]
          rw [List.getLast?_append_of_ne_nil _ (List.cons_ne_nil c k)] at hb2
          have h2 : (pre ++ (c :: k)).length = pre.length + (c :: k).length := by
            rw [List.length_append]
          have : (pre ++ (c :: k) ++ suf)[pre.length + (c :: k).length]? = suf.head? := by
            rw [← h2, getElem?_append_length]
          rw [this]
          exact hb2


/-- C2: `findMatchingKeyword` returns a keyword iff some configured keyword
occurs in the text as a case-insensitive whole word (JS word-boundary
semantics, metacharacters escaped so keywords act as literals); the keyword
returned is the first matching one in list order; and a keyword occurring
only inside a longer word does not match ("ban" vs "banana"). -/
theorem c2_keyword_matcher :
    (∀ K T, (findMatchingKeyword K T).isSome = true ↔ ∃ k ∈ K, MatchesAsKeyword k T) ∧
    (∀ K T k, findMatchingKeyword K T = some k →
      MatchesAsKeyword k T ∧
        ∃ K₁ K₂, K = K₁ ++ k :: K₂ ∧ ∀ kw ∈ K₁, ¬ MatchesAsKeyword kw T) ∧
    findMatchingKeyword [String.data "ban"] (String.data "banana") = none := by
  refine ⟨?_, ?_, by decide⟩
  · intro K T
    rw [findMatchingKeyword, List.find?_isSome]
    constructor
    · rintro ⟨k, hk, hp⟩
      exact ⟨k, hk, (regexTestWord_iff _ _).1 hp⟩
    · rintro ⟨k, hk, hp⟩
      exact ⟨k, hk, (regexTestWord_iff _ _).2 hp⟩
  · intro K T k h
    rw [findMatchingKeyword, List.find?_eq_some] at h
    obtain ⟨hp, as, bs, rfl, hall⟩ := h
    refine ⟨(regexTestWord_iff _ _).1 hp, as, bs, rfl, ?_⟩
    intro kw hkw hmatch
    have hfalse := hall kw hkw
    have htrue : regexTestWord (lowerStr T) (lowerStr kw) = true :=
      (regexTestWord_iff _ _).2 hmatch
    simp [htrue] at hfalse

/-- C3: `isBlockedSubreddit` returns true iff the name is case-insensitively
equal to some configured entry, by full-string comparison: "r/politics2" is
not blocked when only "r/politics" is listed, while case differences are
ignored. -/
theorem c3_subreddit_matcher :
    (∀ S N, isBlockedSubreddit S N = true ↔ ∃ b ∈ S, lowerStr b = lowerStr N) ∧
    isBlockedSubreddit [String.data "r/politics"] (String.data "r/politics2") = false ∧
    isBlockedSubreddit [String.data "r/Politics"] (String.data "r/politics") = true := by
  refine ⟨?_, by decide, by decide⟩
  intro S N
  rw [isBlockedSubreddit, List.any_eq_true]
  simp only [beq_iff_eq]



/-! ### Pass-1 scan decision -/

theorem scanPass1_fold (st : ScanSettings) (rem : Int) (posts : List PostElem)
    (acc : Nat × List PostElem) :
    posts.foldl
      (fun acc p =>
        (if pass1ShouldRemove st p then acc.1 + 1 else acc.1,
         if pass1Queues st rem p then acc.2 ++ [p] else acc.2)) acc =
      (acc.1 + posts.countP (pass1ShouldRemove st),
       acc.2 ++ posts.filter (pass1Queues st rem)) := by
  induction posts generalizing acc with
  | nil => simp
  | cons p ps ih =>
    rw [List.foldl_cons, ih, List.countP_cons, List.filter_cons]
    cases h1 : pass1ShouldRemove st p <;> cases h2 : pass1Queues st rem p <;>
      simp [h1, h2] <;> omega

theorem scanPass1_eq (st : ScanSettings) (rem : Int) (posts : List PostElem) :
    scanPass1 st rem posts =
      (posts.countP (pass1ShouldRemove st), posts.filter (pass1Queues st rem)) := by
  rw [scanPass1, scanPass1_fold]
  simp

theorem pass1ShouldRemove_iff (st : ScanSettings) (p : PostElem) :
    pass1ShouldRemove st p = true ↔
      (effectiveTitleMatch st p = true ∨ subredditBlockedOf st p = true) := by
  cases p with
  | article aria selfSub inner =>
    simp only [pass1ShouldRemove, effectiveTitleMatch, effectiveTitle]
    cases hkw : (findMatchingKeyword st.keywords aria).isSome <;>
      cases hsub : subredditBlockedOf st (PostElem.article aria selfSub inner) <;>
        simp [hkw, hsub]
  | shredditPost attrs parentAria =>
    simp only [pass1ShouldRemove, effectiveTitleMatch, effectiveTitle]
    cases hsub : subredditBlockedOf st (PostElem.shredditPost attrs parentAria) <;>
      cases parentAria <;> simp [hsub]

theorem scanCounters_eq (st : ScanSettings) (posts : List PostElem) (c : CounterSystem) :
    (scanCounters c st posts).mem.totalRemoved
        = c.mem.totalRemoved + posts.countP (pass1ShouldRemove st) ∧
    (scanCounters c st posts).mem.dailyRemoved
        = c.mem.dailyRemoved + posts.countP (pass1ShouldRemove st) := by
  induction posts generalizing c with
  | nil => simp [scanCounters]
  | cons p ps ih =>
    have hstep : scanCounters c st (p :: ps) =
        scanCounters (if pass1ShouldRemove st p then incrementCountersSync c else c) st ps :=
      rfl
    rw [hstep, List.countP_cons]
    cases h : pass1ShouldRemove st p with
    | false =>
      obtain ⟨h1, h2⟩ := ih c
      simp only [Bool.false_eq_true, if_false, h1, h2]
      omega
    | true =>
      obtain ⟨h1, h2⟩ := ih (incrementCountersSync c)
      have ht : (incrementCountersSync c).mem.totalRemoved = c.mem.totalRemoved + 1 := rfl
      have hd : (incrementCountersSync c).mem.dailyRemoved = c.mem.dailyRemoved + 1 := rfl
      simp only [if_true, h1, h2, ht, hd]
      omega

/-- C1 counterexample: with keyword list `["election"]`, a standalone
`shreddit-post` element (no enclosing `article`) titled "Local election
results" in the unblocked subreddit r/news is NOT removed by pass 1, even
though its display title matches the blocked keyword. -/
theorem c1_standalone_title_counterexample :
    pass1ShouldRemove
        ⟨[String.data "election"], [String.data "r/politics"], false⟩
        (PostElem.shredditPost
          ⟨some (String.data "u_alice"), some (String.data "Local election results"),
            some (String.data "r/news")⟩ none) = false ∧
    (findMatchingKeyword [String.data "election"]
        (String.data "Local election results")).isSome = true := by
  constructor
  · decide
  · decide

/-- C1 amended: pass 1 removes an element iff its effective label (an
`article`'s own `aria-label`, or for a `shreddit-post` the `aria-label` of
its enclosing `article`; a standalone `shreddit-post` has none and its
`post-title` attribute is never keyword-checked) matches a blocked keyword,
or its subreddit is blocked; the pass-1 removal count is the number of
elements so classified, and the counters both grow by exactly that count. -/
theorem c1_pass1_decision_amended :
    (∀ st p, pass1ShouldRemove st p = true ↔
      (effectiveTitleMatch st p = true ∨ subredditBlockedOf st p = true)) ∧
    (∀ st rem posts,
      (scanPass1 st rem posts).1 = posts.countP (pass1ShouldRemove st)) ∧
    (∀ st posts c,
      (scanCounters c st posts).mem.totalRemoved
          = c.mem.totalRemoved + posts.countP (pass1ShouldRemove st) ∧
      (scanCounters c st posts).mem.dailyRemoved
          = c.mem.dailyRemoved + posts.countP (pass1ShouldRemove st)) :=
  ⟨pass1ShouldRemove_iff,
   fun st rem posts => by rw [scanPass1_eq],
   fun st posts c => scanCounters_eq st posts c⟩


/-! ### Account-age resolver -/

theorem fetchNetworkPhase_pending (s : ResolverState) (u : String) (now : Int)
    (net : NetworkOutcome) :
    (fetchNetworkPhase s u now net).state.pendingRequests = s.pendingRequests := by
  unfold fetchNetworkPhase
  cases net with
  | fetchError => simp
  | response ok hdr parsed => cases ok <;> cases parsed <;> simp

theorem fetchNetworkPhase_result_failed (s : ResolverState) (u : String) (now : Int)
    (net : NetworkOutcome) (h : failedOutcome net = true) :
    (fetchNetworkPhase s u now net).result = none := by
  unfold fetchNetworkPhase
  cases net with
  | fetchError => simp
  | response ok hdr parsed =>
    cases ok with
    | false => cases parsed <;> simp
    | true =>
      cases parsed with
      | none => simp
      | some d => simp [failedOutcome] at h

theorem fetchNetworkPhase_issued (s : ResolverState) (u : String) (now : Int)
    (net : NetworkOutcome) :
    (fetchNetworkPhase s u now net).issuedRequest = true := by
  unfold fetchNetworkPhase
  cases net with
  | fetchError => simp
  | response ok hdr parsed => cases ok <;> cases parsed <;> simp

theorem fetchUserProfileUncached_cases (s : ResolverState) (u : String) (now : Int)
    (net : NetworkOutcome) :
    fetchUserProfileUncached s u now net = ⟨none, s, false⟩ ∨
      fetchUserProfileUncached s u now net = fetchNetworkPhase s u now net := by
  unfold fetchUserProfileUncached
  split_ifs <;> simp

theorem fetchUserProfile_cases (s : ResolverState) (u : String) (now : Int)
    (net : NetworkOutcome) :
    (∃ e, cacheLookup s.userAgeCache u = some e ∧ now - e.fetchedAt < 3600000 ∧
        fetchUserProfile s u now net = ⟨some e.createdAt, s, false⟩) ∨
      fetchUserProfile s u now net = ⟨none, s, false⟩ ∨
      fetchUserProfile s u now net = fetchNetworkPhase s u now net := by
  unfold fetchUserProfile
  cases hc : cacheLookup s.userAgeCache u with
  | none => exact Or.inr (fetchUserProfileUncached_cases s u now net)
  | some e =>
    by_cases hl : now - e.fetchedAt < 3600000
    · refine Or.inl ⟨e, rfl, hl, ?_⟩
      simp [hl]
    · rcases fetchUserProfileUncached_cases s u now net with h | h
      · refine Or.inr (Or.inl ?_)
        simpa [hl] using h
      · refine Or.inr (Or.inr ?_)
        simpa [hl] using h

theorem fetchUserProfile_issued_eq (s : ResolverState) (u : String) (now : Int)
    (net : NetworkOutcome)
    (h : (fetchUserProfile s u now net).issuedRequest = true) :
    fetchUserProfile s u now net = fetchNetworkPhase s u now net := by
  rcases fetchUserProfile_cases s u now net with ⟨e, _, _, heq⟩ | heq | heq
  · rw [heq] at h
    exact absurd h (by simp)
  · rw [heq] at h
    exact absurd h (by simp)
  · exact heq

theorem cacheLookup_store (cache : List (String × CacheEntry)) (u : String)
    (e : CacheEntry) : cacheLookup (cacheStore cache u e) u = some e := by
  simp [cacheLookup, cacheStore, List.find?]


/-- C4 counterexample: in the initial state, a first resolution for "alice"
whose fetch throws issues a request but caches nothing, so a second
resolution one minute later issues a second request — two calls within one
hour, two outbound requests. -/
theorem c4_failed_call_refetches_counterexample :
    (fetchUserProfile initResolverState "alice" 0
        NetworkOutcome.fetchError).issuedRequest = true ∧
    (fetchUserProfile
        (fetchUserProfile initResolverState "alice" 0 NetworkOutcome.fetchError).state
        "alice" 60000 NetworkOutcome.fetchError).issuedRequest = true :=
  ⟨rfl, rfl⟩

/-- C4 amended: a call served by a cache entry fetched less than 1 hour ago
returns its creation date with no network call; consequently, after a call
for a handle completes successfully over the network at time `t` (OK
response with a parseable date, so the date is cached with fetch time `t`),
any later call for that handle within 1 hour of `t` issues no request and
returns the cached date — at most one request for such a pair.  (A failed
call caches nothing, and a later retry may issue a second request.) -/
theorem c4_cache_behaviour (s : ResolverState) (u : String) (t tl : Int)
    (hdr : RateHeaders) (d : Int) (net2 : NetworkOutcome)
    (hissued : (fetchUserProfile s u t
        (NetworkOutcome.response true hdr (some d))).issuedRequest = true)
    (htl : tl - t < 3600000) :
    (fetchUserProfile s u t (NetworkOutcome.response true hdr (some d))).result
        = some d ∧
    (fetchUserProfile
        (fetchUserProfile s u t (NetworkOutcome.response true hdr (some d))).state
        u tl net2).issuedRequest = false ∧
    (fetchUserProfile
        (fetchUserProfile s u t (NetworkOutcome.response true hdr (some d))).state
        u tl net2).result = some d ∧
    (∀ s2 u2 now2 net3 e, cacheLookup s2.userAgeCache u2 = some e →
      now2 - e.fetchedAt < 3600000 →
      fetchUserProfile s2 u2 now2 net3 = ⟨some e.createdAt, s2, false⟩) := by
  have hhit : ∀ s2 u2 now2 net3 e, cacheLookup s2.userAgeCache u2 = some e →
      now2 - e.fetchedAt < 3600000 →
      fetchUserProfile s2 u2 now2 net3 = ⟨some e.createdAt, s2, false⟩ := by
    intro s2 u2 now2 net3 e hc hl
    unfold fetchUserProfile
    rw [hc]
    simp [hl]
  have heq := fetchUserProfile_issued_eq s u t _ hissued
  have hres : (fetchUserProfile s u t
      (NetworkOutcome.response true hdr (some d))).result = some d := by
    rw [heq]
    rfl
  have hcache : (fetchUserProfile s u t
      (NetworkOutcome.response true hdr (some d))).state.userAgeCache
      = cacheStore s.userAgeCache u ⟨d, t⟩ := by
    rw [heq]
    rfl
  have hlook : cacheLookup (fetchUserProfile s u t
      (NetworkOutcome.response true hdr (some d))).state.userAgeCache u
      = some ⟨d, t⟩ := by
    rw [hcache]
    exact cacheLookup_store _ _ _
  have h2 := hhit _ u tl net2 ⟨d, t⟩ hlook htl
  exact ⟨hres, by rw [h2], by rw [h2], hhit⟩

/-- C4 witness: the amended theorem applied at a concrete successful call. -/
theorem c4_cache_behaviour_witness :
    (fetchUserProfile initResolverState "alice" 0
        (NetworkOutcome.response true ⟨none, none, none⟩ (some 77))).result
      = some 77 :=
  (c4_cache_behaviour initResolverState "alice" 0 1000 ⟨none, none, none⟩ 77
      NetworkOutcome.fetchError (by decide) (by decide)).1

theorem pass1Queues_rate_floor (st : ScanSettings) (rem : Int) (p : PostElem)
    (h : rem ≤ 20) : pass1Queues st rem p = false := by
  have hng : ¬(rem > 20) := by omega
  unfold pass1Queues
  cases hm : elemShreddit p <;> simp [hm, hng]

/-- C5: whenever the recorded remaining rate budget is at or below the
floor of 20, `fetchUserProfile` issues no outbound request — it returns
`null` unless a live cache entry serves the call — and pass 1 queues no
post for an age check. -/
theorem c5_rate_floor (s : ResolverState) (u : String) (now : Int)
    (net : NetworkOutcome) (st : ScanSettings) (posts : List PostElem)
    (h : s.rateLimitInfo.remaining ≤ 20) :
    (fetchUserProfile s u now net).issuedRequest = false ∧
    ((fetchUserProfile s u now net).result = none ∨
      ∃ e, cacheLookup s.userAgeCache u = some e ∧ now - e.fetchedAt < 3600000 ∧
        (fetchUserProfile s u now net).result = some e.createdAt) ∧
    (scanPass1 st s.rateLimitInfo.remaining posts).2 = [] := by
  have hunc : fetchUserProfileUncached s u now net = ⟨none, s, false⟩ := by
    unfold fetchUserProfileUncached
    by_cases h1 : s.apiPaused
    · simp [h1]
    · simp [h1, h]
  have hq : (scanPass1 st s.rateLimitInfo.remaining posts).2 = [] := by
    rw [scanPass1_eq]
    rw [List.filter_eq_nil_iff]
    intro p hp
    simp [pass1Queues_rate_floor st s.rateLimitInfo.remaining p h]
  have hcases : (∃ e, cacheLookup s.userAgeCache u = some e ∧
      now - e.fetchedAt < 3600000 ∧
      fetchUserProfile s u now net = ⟨some e.createdAt, s, false⟩) ∨
      fetchUserProfile s u now net = ⟨none, s, false⟩ := by
    unfold fetchUserProfile
    cases hc : cacheLookup s.userAgeCache u with
    | none => exact Or.inr hunc
    | some e =>
      by_cases hl : now - e.fetchedAt < 3600000
      · refine Or.inl ⟨e, rfl, hl, ?_⟩
        simp [hl]
      · right
        simpa [hl] using hunc
  rcases hcases with ⟨e, hc, hl, heq⟩ | heq
  · exact ⟨by rw [heq], Or.inr ⟨e, hc, hl, by rw [heq]⟩, hq⟩
  · exact ⟨by rw [heq], Or.inl (by rw [heq]), hq⟩

/-- C5 witness: remaining budget 15 (below the floor), concrete call. -/
theorem c5_rate_floor_witness :
    (fetchUserProfile ⟨[], [], ⟨15, 0, 0⟩, false⟩ "bob" 0
        NetworkOutcome.fetchError).issuedRequest = false :=
  (c5_rate_floor ⟨[], [], ⟨15, 0, 0⟩, false⟩ "bob" 0 NetworkOutcome.fetchError
      ⟨[], [], false⟩ [] (by decide)).1

/-- C7: a `fetchUserProfile` call leaves the in-flight set exactly as it
found it (the `finally` always releases the marker the call added), and on
any network or parse failure the call returns `null` (unless a live cache
entry served it before the network was consulted) — the embedding is a
total function, so no path raises. -/
theorem c7_resolver_error_handling (s : ResolverState) (u : String) (now : Int)
    (net : NetworkOutcome) :
    (fetchUserProfile s u now net).state.pendingRequests = s.pendingRequests ∧
    (liveCacheHit s u now = none → failedOutcome net = true →
      (fetchUserProfile s u now net).result = none) := by
  constructor
  · rcases fetchUserProfile_cases s u now net with ⟨e, _, _, heq⟩ | heq | heq <;>
      rw [heq]
    · exact fetchNetworkPhase_pending s u now net
  · intro hlive hfail
    rcases fetchUserProfile_cases s u now net with ⟨e, hc, hl, heq⟩ | heq | heq
    · unfold liveCacheHit at hlive
      rw [hc] at hlive
      simp [hl] at hlive
    · rw [heq]
    · rw [heq]
      exact fetchNetworkPhase_result_failed s u now net hfail

/-- C10: each rate-limit field is overwritten exactly when its header is
present (reset stored as `now + seconds * 1000`) and left unchanged when
absent; and every call that issues a request — OK or not — leaves the
rate-limit record equal to `updateRateLimitFromHeaders` of the response's
headers. -/
theorem c10_rate_header_frame :
    (∀ rl h now,
      (h.remaining = none →
        (updateRateLimitFromHeaders rl h now).remaining = rl.remaining) ∧
      (∀ v, h.remaining = some v →
        (updateRateLimitFromHeaders rl h now).remaining = v) ∧
      (h.reset = none → (updateRateLimitFromHeaders rl h now).reset = rl.reset) ∧
      (∀ v, h.reset = some v →
        (updateRateLimitFromHeaders rl h now).reset = now + v * 1000) ∧
      (h.used = none → (updateRateLimitFromHeaders rl h now).used = rl.used) ∧
      (∀ v, h.used = some v → (updateRateLimitFromHeaders rl h now).used = v)) ∧
    (∀ s u now ok hdr parsed,
      (fetchUserProfile s u now
          (NetworkOutcome.response ok hdr parsed)).issuedRequest = true →
      (fetchUserProfile s u now
          (NetworkOutcome.response ok hdr parsed)).state.rateLimitInfo =
        updateRateLimitFromHeaders s.rateLimitInfo hdr now) := by
  constructor
  · intro rl h now
    obtain ⟨hr, hre, hu⟩ := h
    cases hr <;> cases hre <;> cases hu <;> simp [updateRateLimitFromHeaders]
  · intro s u now ok hdr parsed hiss
    rw [fetchUserProfile_issued_eq s u now _ hiss]
    unfold fetchNetworkPhase
    cases ok <;> cases parsed <;> simp

/-! ### Counter store -/

theorem counterStep_coherent_mono (s : CounterSystem) (op : CounterOp)
    (hs : CoherentStorage s) :
    CoherentStorage (counterStep s op) ∧
    s.mem.totalRemoved ≤ (counterStep s op).mem.totalRemoved := by
  cases op with
  | increment => exact ⟨Or.inr rfl, Nat.le_succ _⟩
  | load today =>
    rcases hs with hnone | hsome
    · constructor
      · right
        simp [counterStep, loadCounters, hnone]
      · simp [counterStep, loadCounters, hnone]
    · constructor
      · simp only [counterStep, loadCounters, hsome]
        split_ifs with hd
        · exact Or.inr rfl
        · exact Or.inr rfl
      · simp only [counterStep, loadCounters, hsome]
        split_ifs with hd
        · exact Nat.le_refl _
        · exact Nat.le_refl _

theorem counterStep_sameDay (s : CounterSystem) (op : CounterOp)
    (hs : CoherentStorage s)
    (hd : ∀ d, op = CounterOp.load d → d = s.mem.lastResetDate) :
    (counterStep s op).mem.lastResetDate = s.mem.lastResetDate ∧
    s.mem.dailyRemoved ≤ (counterStep s op).mem.dailyRemoved := by
  cases op with
  | increment => exact ⟨rfl, Nat.le_succ _⟩
  | load today =>
    rcases hs with hnone | hsome
    · constructor <;> simp [counterStep, loadCounters, hnone]
    · simp only [counterStep, loadCounters, hsome]
      rw [if_neg (fun hne => hne (hd today rfl).symm)]
      exact ⟨rfl, Nat.le_refl _⟩

theorem counterRun_coherent_mono (s : CounterSystem) (ops : List CounterOp)
    (hs : CoherentStorage s) :
    CoherentStorage (counterRun s ops) ∧
    s.mem.totalRemoved ≤ (counterRun s ops).mem.totalRemoved := by
  induction ops generalizing s with
  | nil => exact ⟨hs, Nat.le_refl _⟩
  | cons op ops ih =>
    obtain ⟨hc1, hm1⟩ := counterStep_coherent_mono s op hs
    obtain ⟨hc2, hm2⟩ := ih (counterStep s op) hc1
    exact ⟨hc2, Nat.le_trans hm1 hm2⟩

theorem counterRun_sameDay (s : CounterSystem) (ops : List CounterOp)
    (hs : CoherentStorage s)
    (hd : ∀ d, CounterOp.load d ∈ ops → d = s.mem.lastResetDate) :
    (counterRun s ops).mem.lastResetDate = s.mem.lastResetDate ∧
    s.mem.dailyRemoved ≤ (counterRun s ops).mem.dailyRemoved := by
  induction ops generalizing s with
  | nil => exact ⟨rfl, Nat.le_refl _⟩
  | cons op ops ih =>
    have hdop : ∀ d, op = CounterOp.load d → d = s.mem.lastResetDate :=
      fun d ho => hd d (by rw [ho]; exact List.mem_cons_self _ _)
    obtain ⟨hl1, hm1⟩ := counterStep_sameDay s op hs hdop
    obtain ⟨hcoh, _⟩ := counterStep_coherent_mono s op hs
    have hd2 : ∀ d, CounterOp.load d ∈ ops → d = (counterStep s op).mem.lastResetDate := by
      intro d hm
      rw [hl1]
      exact hd d (List.mem_cons_of_mem _ hm)
    obtain ⟨hl2, hm2⟩ := ih (counterStep s op) hcoh hd2
    have hrun : counterRun s (op :: ops) = counterRun (counterStep s op) ops := rfl
    rw [hrun, hl2, hl1]
    exact ⟨rfl, Nat.le_trans hm1 hm2⟩

/-- C6: over any sequence of engine operations on coherent storage,
`totalRemoved` is non-decreasing and never reset; within one calendar day
(every load carrying the current reset date) `dailyRemoved` is also
non-decreasing and the reset date is unchanged; a load on a new date resets
`dailyRemoved` to 0, stamps the new date and leaves `totalRemoved` intact;
and a load on the already-stamped date is the identity, so the reset
happens exactly once per new date. -/
theorem c6_counter_invariants (s : CounterSystem) (ops : List CounterOp)
    (hs : CoherentStorage s) :
    CoherentStorage (counterRun s ops) ∧
    s.mem.totalRemoved ≤ (counterRun s ops).mem.totalRemoved ∧
    ((∀ d, CounterOp.load d ∈ ops → d = s.mem.lastResetDate) →
      (counterRun s ops).mem.lastResetDate = s.mem.lastResetDate ∧
      s.mem.dailyRemoved ≤ (counterRun s ops).mem.dailyRemoved) ∧
    (∀ today, s.stored = some s.mem → s.mem.lastResetDate ≠ today →
      (counterStep s (CounterOp.load today)).mem.dailyRemoved = 0 ∧
      (counterStep s (CounterOp.load today)).mem.lastResetDate = today ∧
      (counterStep s (CounterOp.load today)).mem.totalRemoved
        = s.mem.totalRemoved) ∧
    (∀ today, s.stored = some s.mem → s.mem.lastResetDate = today →
      counterStep s (CounterOp.load today) = s) := by
  obtain ⟨h1, h2⟩ := counterRun_coherent_mono s ops hs
  refine ⟨h1, h2, fun hd => counterRun_sameDay s ops hs hd, ?_, ?_⟩
  · intro today hsome hne
    simp only [counterStep, loadCounters, hsome]
    rw [if_pos hne]
    exact ⟨rfl, rfl, rfl⟩
  · intro today hsome heq
    simp only [counterStep, loadCounters, hsome]
    rw [if_neg (fun hne => hne heq), ← hsome]

/-- C6 witness: one increment from a freshly initialised system. -/
theorem c6_counter_invariants_witness :
    CoherentStorage
      (counterRun ⟨⟨0, 0, "Mon Jan 01 2024"⟩, none⟩ [CounterOp.increment]) :=
  (c6_counter_invariants ⟨⟨0, 0, "Mon Jan 01 2024"⟩, none⟩ [CounterOp.increment]
      (Or.inl rfl)).1

/-- C8: evaluating `destroy` on an engine holding a pending debounce
timeout shows the observer detached and the periodic interval cleared, but
the debounce timeout still pending — `destroy` never clears it, so its
callback later runs `removePosts` against the torn-down instance. -/
theorem c8_destroy_keeps_debounce_pending :
    (destroy (observerMutationBurst ⟨true, some 1, none⟩ 2)).debounceTimer
        = some 2 ∧
    (destroy (observerMutationBurst ⟨true, some 1, none⟩ 2)).periodicTimer
        = none ∧
    (destroy (observerMutationBurst ⟨true, some 1, none⟩ 2)).observerAttached
        = false :=
  ⟨rfl, rfl, rfl⟩

/-- C9: `isAccountTooYoung` holds iff the age in 30.44-day average months,
`(now - createdAt) / (1000*60*60*24*30.44)`, is below the configured
minimum — equivalently, iff `now - createdAt` is below `minAccountAge`
times 2,630,016,000 ms (= 30.44 days). -/
theorem c9_account_age_predicate (now createdAt minA : Int) :
    (isAccountTooYoung now createdAt minA = true ↔
      ((now - createdAt : Int) : ℚ) / ((1000 : ℚ) * 60 * 60 * 24 * (3044 / 100))
        < (minA : ℚ)) ∧
    (isAccountTooYoung now createdAt minA = true ↔
      now - createdAt < minA * 2630016000) := by
  have hiff : isAccountTooYoung now createdAt minA = true ↔
      ((now - createdAt : Int) : ℚ) / ((1000 : ℚ) * 60 * 60 * 24 * (3044 / 100))
        < (minA : ℚ) := by
    rw [isAccountTooYoung, decide_eq_true_eq]
  refine ⟨hiff, hiff.trans ?_⟩
  have hpos : (0 : ℚ) < (1000 : ℚ) * 60 * 60 * 24 * (3044 / 100) := by norm_num
  rw [div_lt_iff₀ hpos,
    show ((1000 : ℚ) * 60 * 60 * 24 * (3044 / 100)) = (2630016000 : ℚ) by norm_num]
  constructor
  · intro hq
    exact_mod_cast hq
  · intro hz
    exact_mod_cast hz

end RBK
